import Mathlib

/-!
Shallow embedding of `hw/dv/verilator/cpp/verilator_memutil.h` (class
`VerilatorMemUtil`): a memory-region registry and memory-image loader for
Verilator simulations.  The header in the sources declares the data model
(`MemImageType`, `MemAreaLoc`, `MemArea`, the two private maps) and the
operations (`RegisterMemoryArea`, `FindRegionForAddr`, `LoadFileToNamedMem`,
`LoadElfToMemories`, `ParseCLIArguments`); the function bodies are not part
of the sources, so each body below is modelled from the specification, as
noted in its doc comment.  `uint32_t` values are modelled as `Nat`; writes to
the simulated memories (the foreign DPI write capability) are modelled as a
list of emitted `Write` records.
-/

/-- Memory image file types, from the header's `MemImageType` enum. -/
inductive MemImageType
  | kMemImageUnknown
  | kMemImageElf
  | kMemImageVmem
  deriving DecidableEq, Repr

/-- Load location of a memory area (header lines 23-26).  `base` is the lowest
address in the area, `size` its length in bytes; both model `uint32_t`
fields.  If `size = 0` the address location is unknown. -/
structure MemAreaLoc where
  base : Nat
  size : Nat
  deriving DecidableEq, Repr

/-- A registered memory area (header lines 28-33). -/
structure MemArea where
  name : String
  location : String
  width_byte : Nat
  addr_loc : MemAreaLoc
  deriving DecidableEq, Repr

/-- Registry state: the two private maps of `VerilatorMemUtil` (header lines
82-83), modelled as association lists: `name_to_mem_` keyed by region name,
`addr_to_mem_` keyed by base address (holding only areas with a known
address location). -/
structure Registry where
  name_to_mem_ : List (String × MemArea)
  addr_to_mem_ : List (Nat × MemArea)
  deriving DecidableEq, Repr

/-- The registry before any `RegisterMemoryArea` call. -/
def emptyRegistry : Registry := ⟨[], []⟩

/-- One-past-the-end address of a memory area: `base + size`. -/
def regionEnd (m : MemArea) : Nat :=
  m.addr_loc.base + m.addr_loc.size

/-- Whether address `a` lies in the half-open range `[base, base+size)` of an
addressed area (an area with `size = 0` contains no address). -/
def containsAddr (m : MemArea) (a : Nat) : Bool :=
  decide (0 < m.addr_loc.size) && decide (m.addr_loc.base ≤ a) && decide (a < regionEnd m)

/-- Whether two load locations overlap as half-open ranges; a location with
`size = 0` (unknown placement) overlaps nothing. -/
def rangesOverlap (x y : MemAreaLoc) : Bool :=
  decide (0 < x.size) && decide (0 < y.size) &&
    decide (x.base < y.base + y.size) && decide (y.base < x.base + x.size)

/-- Name-keyed lookup in the registry's `name_to_mem_` map. -/
def lookupName (st : Registry) (name : String) : Option MemArea :=
  (st.name_to_mem_.find? (fun p => p.1 == name)).map Prod.snd

/-- Modelled from the spec: body of `FindRegionForAddr` (header line 106) is
not in the sources.  Spec 4.1, `FindRegionForAddress(addr)`: returns the
region whose `[base, base+size)` contains `addr`, or none if no addressed
region covers it; implemented as a linear scan of the address index. -/
def FindRegionForAddr (st : Registry) (lma : Nat) : Option MemArea :=
  (st.addr_to_mem_.find? (fun p => containsAddr p.2 lma)).map Prod.snd

/-- Boolean pairwise non-overlap check over the address index. -/
def noOverlapB : List (Nat × MemArea) → Bool
  | [] => true
  | p :: rest =>
    rest.all (fun q => !(rangesOverlap p.2.addr_loc q.2.addr_loc)) && noOverlapB rest

/-- Registry invariant (spec 3): among regions with a known address location,
address ranges `[base, base+size)` are pairwise non-overlapping. -/
def RegistryInv (st : Registry) : Prop :=
  noOverlapB st.addr_to_mem_ = true

instance (st : Registry) : Decidable (RegistryInv st) :=
  inferInstanceAs (Decidable (noOverlapB st.addr_to_mem_ = true))

/-- Modelled from the spec: body of `RegisterMemoryArea` (header lines 62-63)
is not in the sources.  Spec 4.1, `RegisterRegion`: fails (returns false, no
mutation) if the name already exists, if `width_bit` is not a positive
multiple of 8, or if the given location overlaps a previously registered
addressed region; on success inserts into the name map and, if addressed
(`size > 0`), into the address index.  Returns the success flag together
with the updated registry state. -/
def RegisterMemoryArea (st : Registry) (name location : String) (width_bit : Nat)
    (addr_loc : Option MemAreaLoc) : Bool × Registry :=
  if (st.name_to_mem_.find? (fun p => p.1 == name)).isSome then (false, st)
  else if width_bit == 0 || width_bit % 8 != 0 then (false, st)
  else if st.addr_to_mem_.any
      (fun p => rangesOverlap p.2.addr_loc (addr_loc.getD ⟨0, 0⟩)) then (false, st)
  else
    (true,
      ⟨st.name_to_mem_ ++
          [(name, ⟨name, location, width_bit / 8, addr_loc.getD ⟨0, 0⟩⟩)],
       if 0 < (addr_loc.getD ⟨0, 0⟩).size then
         st.addr_to_mem_ ++
           [((addr_loc.getD ⟨0, 0⟩).base, ⟨name, location, width_bit / 8, addr_loc.getD ⟨0, 0⟩⟩)]
       else st.addr_to_mem_⟩)

/-- Arguments of one `RegisterMemoryArea` call, for describing reachable
registry states. -/
structure RegArgs where
  name : String
  location : String
  width_bit : Nat
  addr_loc : Option MemAreaLoc
  deriving DecidableEq, Repr

/-- Registry state reached from `st` by a sequence of `RegisterMemoryArea`
calls. -/
def registerAll (st : Registry) (calls : List RegArgs) : Registry :=
  calls.foldl (fun s a => (RegisterMemoryArea s a.name a.location a.width_bit a.addr_loc).2) st

/-- Error kinds of the loader (spec 7). -/
inductive LoadError
  | DuplicateRegionName
  | InvalidWidth
  | OverlappingAddressRange
  | UnknownRegion
  | UnmappedAddress
  | ParseError
  | WriteError
  | UnsupportedImageType
  deriving DecidableEq, Repr

/-- One call to the foreign write capability (spec 6): a region location
handle, a byte offset within that region, and the data buffer (bytes). -/
structure Write where
  location : String
  offset : Nat
  data : List Nat
  deriving DecidableEq, Repr

/-- The write calls actually issued by a load result: a failed load issues
none beyond those recorded in a successful result. -/
def writesOf (r : Except LoadError (List Write)) : List Write :=
  match r with
  | .ok ws => ws
  | .error _ => []

/-- A parsed ELF program-header entry (segment): type tag, physical/load
address, file-backed bytes (so `filesz` is `data.length`), and in-memory
size `memsz`. -/
structure ElfSegment where
  ptype : Nat
  paddr : Nat
  data : List Nat
  memsz : Nat
  deriving DecidableEq, Repr

/-- ELF `PT_LOAD` program-header type tag. -/
def PT_LOAD : Nat := 1

/-- On-disk size of a segment. -/
def ElfSegment.filesz (s : ElfSegment) : Nat := s.data.length

/-- Byte of a segment at offset `i`: file-backed for `i < filesz`, zero for
the zero-initialized tail within `memsz` (spec 4.2 step 4). -/
def segByte (s : ElfSegment) (i : Nat) : Nat :=
  if h : i < s.data.length then s.data.get ⟨i, h⟩ else 0

/-- Modelled from the spec: body of `LoadElfToMemories` (header line 101) is
not in the sources.  Spec 4.2 `LoadElfSegments` steps 3-5, recursion for one
segment: starting at segment offset `off` with `remaining` bytes left,
resolve the region containing the current address, emit one write for the
contiguous sub-range up to the region boundary (or segment end), and
continue; an address covered by no region is a fatal `UnmappedAddress`.
`fuel` only bounds the recursion depth: each step consumes at least one byte
of `remaining`, so `fuel = remaining` at the top call suffices. -/
def splitGo (st : Registry) (seg : ElfSegment) : Nat → Nat → Nat → Except LoadError (List Write)
  | 0, _, _ => .ok []
  | fuel + 1, off, remaining =>
    if remaining = 0 then .ok []
    else
      match FindRegionForAddr st (seg.paddr + off) with
      | none => .error .UnmappedAddress
      | some m =>
        let chunk := min (regionEnd m - (seg.paddr + off)) remaining
        let w : Write := ⟨m.location, seg.paddr + off - m.addr_loc.base,
                          (List.range chunk).map (fun i => segByte seg (off + i))⟩
        match splitGo st seg fuel (off + chunk) (remaining - chunk) with
        | .ok ws => .ok (w :: ws)
        | .error e => .error e

/-- Write calls for one `LOAD` segment: split at region boundaries across the
whole `[paddr, paddr + memsz)` range. -/
def LoadElfSegment (st : Registry) (seg : ElfSegment) : Except LoadError (List Write) :=
  splitGo st seg seg.memsz 0 seg.memsz

/-- Modelled from the spec: body of `LoadElfToMemories` (header line 101) is
not in the sources.  Spec 4.2 steps 1-2: process only `PT_LOAD` segments of
the parsed program-header table, in order, collecting the emitted writes;
the first failing segment aborts the load. -/
def LoadElfToMemories (st : Registry) : List ElfSegment → Except LoadError (List Write)
  | [] => .ok []
  | s :: rest =>
    if s.ptype = PT_LOAD then
      match LoadElfSegment st s with
      | .ok ws => (LoadElfToMemories st rest).map (fun ws2 => ws ++ ws2)
      | .error e => .error e
    else LoadElfToMemories st rest

/-- Modelled from the spec: body of `LoadFileToNamedMem` (header lines 96-97)
is not in the sources.  Spec 4.2, RawBinary (vmem) path of `LoadFile`:
requires a non-empty region name that resolves to a registered region
(fails with `UnknownRegion` otherwise, issuing no write); on success the
whole file content is handed to the foreign write capability as one packed
byte stream at offset 0 of the region's location. -/
def LoadVmemToNamedMem (st : Registry) (name : String) (content : List Nat) :
    Except LoadError (List Write) :=
  if name = "" then .error .UnknownRegion
  else
    match lookupName st name with
    | none => .error .UnknownRegion
    | some m => .ok [⟨m.location, 0, content⟩]

/-- One external load request as parsed from `--meminit=<region>,<file>[,<type>]`
(spec 3, `LoadRequest`). -/
structure LoadRequest where
  region_name : String
  filepath : String
  itype : MemImageType
  deriving DecidableEq, Repr

/-- Modelled from the spec: body of `ParseCLIArguments` (header line 79) is
not in the sources.  Spec 4.3, `ResolveLoadArguments`: process load requests
in order through `LoadFile` (abstracted here as the outcome function `lf`),
stopping at the first failure; returns overall success together with the
list of requests actually attempted. -/
def ResolveLoadRequests (lf : LoadRequest → Bool) : List LoadRequest → Bool × List LoadRequest
  | [] => (true, [])
  | r :: rest =>
    if lf r then
      let res := ResolveLoadRequests lf rest
      (res.1, r :: res.2)
    else (false, [r])

/-- Absolute start addresses of a list of writes laid out consecutively from
`base` (write `i+1` starts where write `i` ends). -/
def writeStarts (base : Nat) : List Write → List Nat
  | [] => []
  | w :: ws => base :: writeStarts (base + w.data.length) ws

/-- Example registry with a single addressed region `rom` at `[0x100, 0x140)`. -/
def stA : Registry :=
  (RegisterMemoryArea emptyRegistry "rom" "TOP.u_rom" 32 (some ⟨0x100, 0x40⟩)).2

/-- The `rom` area of `stA`. -/
def romA : MemArea := ⟨"rom", "TOP.u_rom", 4, ⟨0x100, 0x40⟩⟩

/-- Example registry with two back-to-back addressed regions `rom` at
`[0x100, 0x140)` and `ram` at `[0x140, 0x180)`. -/
def stB : Registry :=
  registerAll emptyRegistry
    [⟨"rom", "TOP.u_rom", 32, some ⟨0x100, 0x40⟩⟩,
     ⟨"ram", "TOP.u_ram", 32, some ⟨0x140, 0x40⟩⟩]

/-- Example `LOAD` segment spanning `[0x100, 0x180)` with `filesz = 0x40`
file-backed bytes and `memsz = 0x80`. -/
def segB : ElfSegment := ⟨PT_LOAD, 0x100, List.replicate 0x40 7, 0x80⟩

/-- Example `LOAD` segment spanning `[0x160, 0x1A0)`, partially outside every
region of `stB`. -/
def segD : ElfSegment := ⟨PT_LOAD, 0x160, List.replicate 0x20 1, 0x40⟩

/-- Example `LoadFile` outcome function: every file succeeds except `bad`. -/
def lfEx : LoadRequest → Bool := fun r => !(r.filepath == "bad")

/-- Three example load requests; the second one fails under `lfEx`. -/
def reqEx1 : LoadRequest := ⟨"rom", "a.vmem", MemImageType.kMemImageVmem⟩

/-- Second example load request (the failing one). -/
def reqEx2 : LoadRequest := ⟨"ram", "bad", MemImageType.kMemImageVmem⟩

/-- Third example load request (never attempted). -/
def reqEx3 : LoadRequest := ⟨"rom", "c.elf", MemImageType.kMemImageElf⟩

/-! ## Registry lemmas -/

theorem find_region_elim {st : Registry} {a : Nat} {m : MemArea}
    (h : FindRegionForAddr st a = some m) :
    ∃ p, p ∈ st.addr_to_mem_ ∧ p.2 = m ∧ containsAddr m a = true := by
  unfold FindRegionForAddr at h
  cases hf : st.addr_to_mem_.find? (fun p => containsAddr p.2 a) with
  | none => rw [hf] at h; simp at h
  | some p =>
    rw [hf] at h
    have h2 : p.2 = m := by simpa using h
    subst h2
    have hc := List.find?_some (p := fun q : Nat × MemArea => containsAddr q.2 a) hf
    exact ⟨p, List.mem_of_find?_eq_some hf, rfl, by simpa using hc⟩

theorem overlap_of_contains {m m' : MemArea} {a : Nat} (h : containsAddr m a = true)
    (h' : containsAddr m' a = true) : rangesOverlap m.addr_loc m'.addr_loc = true := by
  simp only [containsAddr, regionEnd, Bool.and_eq_true, decide_eq_true_eq] at h h'
  simp only [rangesOverlap, Bool.and_eq_true, decide_eq_true_eq]
  omega

theorem find_unique_aux {a : Nat} (l : List (Nat × MemArea)) (hinv : noOverlapB l = true)
    (p : Nat × MemArea) (hp : p ∈ l) (hc : containsAddr p.2 a = true) :
    (l.find? (fun q => containsAddr q.2 a)).map Prod.snd = some p.2 := by
  induction l with
  | nil => cases hp
  | cons q rest ih =>
    simp only [noOverlapB, Bool.and_eq_true, List.all_eq_true] at hinv
    obtain ⟨hall, hrest⟩ := hinv
    rcases List.mem_cons.mp hp with rfl | hmem
    · simp [List.find?_cons, hc]
    · by_cases hq : containsAddr q.2 a = true
      · have hno := hall p hmem
        have hov : rangesOverlap q.2.addr_loc p.2.addr_loc = true :=
          overlap_of_contains hq hc
        rw [hov] at hno
        simp at hno
      · have hq' : containsAddr q.2 a = false := by simpa using hq
        simp only [List.find?_cons, hq']
        exact ih hrest hmem

theorem find_region_unique {st : Registry} {a : Nat} {p : Nat × MemArea}
    (hinv : RegistryInv st) (hp : p ∈ st.addr_to_mem_)
    (hc : containsAddr p.2 a = true) :
    FindRegionForAddr st a = some p.2 :=
  find_unique_aux st.addr_to_mem_ hinv p hp hc

theorem find_region_isSome {st : Registry} {b : Nat} {p : Nat × MemArea}
    (hp : p ∈ st.addr_to_mem_) (hc : containsAddr p.2 b = true) :
    (FindRegionForAddr st b).isSome = true := by
  unfold FindRegionForAddr
  rw [Option.isSome_map']
  exact List.find?_isSome.mpr ⟨p, hp, hc⟩

/-! ## Claim C4: fail-fast request resolution -/

/-- C4: if every request before `r` succeeds and `r` fails, the resolver stops
at `r`: it attempts exactly the requests up to and including `r` (none after
it) and reports overall failure. -/
theorem resolver_fail_fast (lf : LoadRequest → Bool) (pre : List LoadRequest)
    (r : LoadRequest) (post : List LoadRequest)
    (hpre : ∀ p ∈ pre, lf p = true) (hr : lf r = false) :
    ResolveLoadRequests lf (pre ++ r :: post) = (false, pre ++ [r]) := by
  induction pre with
  | nil => simp [ResolveLoadRequests, hr]
  | cons q rest ih =>
    have hq : lf q = true := hpre q (List.mem_cons_self q rest)
    have ih' := ih (fun p hp => hpre p (List.mem_cons_of_mem q hp))
    simp [ResolveLoadRequests, hq, ih']

/-- Witness for C4: of three requests where the second fails, the third is
never attempted and the resolver returns failure. -/
theorem resolver_fail_fast_witness :
    ResolveLoadRequests lfEx [reqEx1, reqEx2, reqEx3] = (false, [reqEx1, reqEx2]) := by
  have h := resolver_fail_fast lfEx [reqEx1] reqEx2 [reqEx3]
    (by intro p hp; simp at hp; subst hp; decide) (by decide)
  simpa using h

/-! ## Claim C5: duplicate name registration -/

/-- C5: a `RegisterMemoryArea` call whose name is already registered returns
false and leaves the registry (both the name map and the address index)
completely unmodified. -/
theorem register_duplicate_name_no_mutation (st : Registry) (n l : String)
    (w : Nat) (al : Option MemAreaLoc) (h : (lookupName st n).isSome = true) :
    RegisterMemoryArea st n l w al = (false, st) := by
  unfold RegisterMemoryArea
  have h' : (st.name_to_mem_.find? (fun p => p.1 == n)).isSome = true := by
    unfold lookupName at h
    rwa [Option.isSome_map'] at h
  rw [if_pos h']

/-- Witness for C5: re-registering `rom` in `stA` fails and leaves `stA`
unchanged. -/
theorem register_duplicate_name_no_mutation_witness :
    RegisterMemoryArea stA "rom" "TOP.other" 32 none = (false, stA) :=
  register_duplicate_name_no_mutation stA "rom" "TOP.other" 32 none (by decide)

/-! ## Claim C7: invalid width registration -/

/-- C7: a `RegisterMemoryArea` call whose `width_bit` is not a positive
multiple of 8 fails and does not register the region. -/
theorem register_invalid_width_fails (st : Registry) (n l : String) (w : Nat)
    (al : Option MemAreaLoc) (h : w = 0 ∨ w % 8 ≠ 0) :
    RegisterMemoryArea st n l w al = (false, st) := by
  unfold RegisterMemoryArea
  by_cases hdup : (st.name_to_mem_.find? (fun p => p.1 == n)).isSome
  · rw [if_pos hdup]
  · rw [if_neg hdup, if_pos]
    simp only [Bool.or_eq_true, beq_iff_eq, bne_iff_ne, ne_eq]
    tauto

/-- Witness for C7: registering with `width_bit = 12` and with
`width_bit = 0` both fail. -/
theorem register_invalid_width_fails_witness :
    RegisterMemoryArea emptyRegistry "m" "L" 12 none = (false, emptyRegistry) ∧
    RegisterMemoryArea emptyRegistry "m" "L" 0 none = (false, emptyRegistry) :=
  ⟨register_invalid_width_fails emptyRegistry "m" "L" 12 none (by decide),
   register_invalid_width_fails emptyRegistry "m" "L" 0 none (by decide)⟩

/-! ## Claim C9: raw-binary load with unknown region -/

/-- C9: a raw-binary (vmem) load whose region name is empty or resolves to no
registered region fails with `UnknownRegion` and issues zero write calls. -/
theorem vmem_unknown_region_fails (st : Registry) (name : String)
    (content : List Nat) (h : name = "" ∨ lookupName st name = none) :
    LoadVmemToNamedMem st name content = .error .UnknownRegion ∧
    writesOf (LoadVmemToNamedMem st name content) = [] := by
  have hmain : LoadVmemToNamedMem st name content = .error .UnknownRegion := by
    unfold LoadVmemToNamedMem
    rcases h with rfl | h
    · simp
    · by_cases hn : name = ""
      · simp [hn]
      · simp [hn, h]
  exact ⟨hmain, by rw [hmain]; rfl⟩

/-- Witness for C9: loading a vmem image into unregistered region `flash` of
`stA` fails with `UnknownRegion` and issues no write. -/
theorem vmem_unknown_region_fails_witness :
    LoadVmemToNamedMem stA "flash" [1, 2, 3] = .error .UnknownRegion ∧
    writesOf (LoadVmemToNamedMem stA "flash" [1, 2, 3]) = [] :=
  vmem_unknown_region_fails stA "flash" [1, 2, 3] (Or.inr (by decide))

/-! ## Claim C6: address lookup characterization -/

/-- C6: under the non-overlap invariant, `FindRegionForAddr addr` returns
exactly the unique registered region whose half-open range `[base, base+size)`
contains `addr` (in particular it returns the region for `addr = base`), and
returns none exactly when no registered region contains `addr` (in particular
at an exact upper bound `base + size` covered by no region). -/
theorem find_region_characterization (st : Registry) (a : Nat)
    (hinv : RegistryInv st) :
    (∀ m : MemArea, FindRegionForAddr st a = some m ↔
        m ∈ st.addr_to_mem_.map Prod.snd ∧ containsAddr m a = true) ∧
    (FindRegionForAddr st a = none ↔
        ∀ m ∈ st.addr_to_mem_.map Prod.snd, containsAddr m a = false) := by
  constructor
  · intro m
    constructor
    · intro h
      obtain ⟨p, hp, hpm, hc⟩ := find_region_elim h
      exact ⟨List.mem_map.mpr ⟨p, hp, hpm⟩, hc⟩
    · rintro ⟨hm, hc⟩
      obtain ⟨p, hp, hpm⟩ := List.mem_map.mp hm
      subst hpm
      exact find_region_unique hinv hp hc
  · constructor
    · intro h m hm
      obtain ⟨p, hp, hpm⟩ := List.mem_map.mp hm
      subst hpm
      by_contra hc
      have hc' : containsAddr p.2 a = true := by simpa using hc
      rw [find_region_unique hinv hp hc'] at h
      cases h
    · intro h
      cases hr : FindRegionForAddr st a with
      | none => rfl
      | some m =>
        obtain ⟨p, hp, hpm, hc⟩ := find_region_elim hr
        have := h m (List.mem_map.mpr ⟨p, hp, hpm⟩)
        rw [hc] at this
        cases this

/-- Witness for C6: in `stA` (one region `[0x100, 0x140)`), lookup at the
base returns the region, lookup at the exclusive upper bound `0x140` and at
an outside address return none. -/
theorem find_region_characterization_witness :
    FindRegionForAddr stA 0x100 = some romA ∧
    FindRegionForAddr stA 0x140 = none ∧
    FindRegionForAddr stA 0x90 = none :=
  ⟨((find_region_characterization stA 0x100 (by decide)).1 romA).mpr
      (by constructor <;> decide),
   (find_region_characterization stA 0x140 (by decide)).2.mpr (by decide),
   (find_region_characterization stA 0x90 (by decide)).2.mpr (by decide)⟩

/-! ## Claim C8: non-overlap invariant of reachable registries -/

theorem noOverlapB_append_singleton (l : List (Nat × MemArea)) (x : Nat × MemArea)
    (h1 : noOverlapB l = true)
    (h2 : ∀ p ∈ l, rangesOverlap p.2.addr_loc x.2.addr_loc = false) :
    noOverlapB (l ++ [x]) = true := by
  induction l with
  | nil => simp [noOverlapB]
  | cons q rest ih =>
    simp only [noOverlapB, Bool.and_eq_true, List.all_eq_true] at h1
    obtain ⟨hq, hrest⟩ := h1
    simp only [List.cons_append, noOverlapB, Bool.and_eq_true, List.all_eq_true]
    constructor
    · intro r hr
      rcases List.mem_append.mp hr with hr | hr
      · exact hq r hr
      · have hx : r = x := by simpa using hr
        subst hx
        simp [h2 q (List.mem_cons_self q rest)]
    · exact ih hrest (fun p hp => h2 p (List.mem_cons_of_mem q hp))

theorem register_preserves_inv (st : Registry) (n l : String) (w : Nat)
    (al : Option MemAreaLoc) (hinv : RegistryInv st) :
    RegistryInv (RegisterMemoryArea st n l w al).2 := by
  unfold RegisterMemoryArea
  split
  · exact hinv
  · split
    · exact hinv
    · split
      · exact hinv
      · rename_i hnodup hw hover
        by_cases hsz : 0 < (al.getD ⟨0, 0⟩).size
        · simp only [RegistryInv, if_pos hsz]
          refine noOverlapB_append_singleton _ _ hinv ?_
          intro p hp
          by_contra hc
          exact hover (List.any_eq_true.mpr ⟨p, hp, by simpa using hc⟩)
        · simp only [RegistryInv, if_neg hsz]
          exact hinv

theorem registerAll_preserves_inv (calls : List RegArgs) :
    ∀ st : Registry, RegistryInv st → RegistryInv (registerAll st calls) := by
  induction calls with
  | nil => intro st h; exact h
  | cons c rest ih =>
    intro st h
    exact ih _ (register_preserves_inv st c.name c.location c.width_bit c.addr_loc h)

/-- C8: every registry reachable from the empty registry by
`RegisterMemoryArea` calls satisfies the pairwise non-overlap invariant on
addressed regions, and any `RegisterMemoryArea` call whose location overlaps
a previously registered addressed region returns false; in particular
registering `[0,16)` and then `[8,16)` fails on the second call. -/
theorem register_nonoverlap_invariant :
    (∀ calls : List RegArgs, RegistryInv (registerAll emptyRegistry calls)) ∧
    (∀ (st : Registry) (n l : String) (w : Nat) (loc : MemAreaLoc),
        (∃ p ∈ st.addr_to_mem_, rangesOverlap p.2.addr_loc loc = true) →
        (RegisterMemoryArea st n l w (some loc)).1 = false) ∧
    (RegisterMemoryArea
        (RegisterMemoryArea emptyRegistry "m0" "l0" 32 (some ⟨0, 16⟩)).2
        "m1" "l1" 32 (some ⟨8, 8⟩)).1 = false := by
  refine ⟨fun calls => registerAll_preserves_inv calls emptyRegistry (by decide), ?_, by decide⟩
  intro st n l w loc h
  unfold RegisterMemoryArea
  split
  · rfl
  · split
    · rfl
    · rw [if_pos]
      obtain ⟨p, hp, hov⟩ := h
      exact List.any_eq_true.mpr ⟨p, hp, by simpa using hov⟩

/-- Witness for C8: in a registry holding `[0,16)`, registering a region at
`[8,16)` (overlapping) fails. -/
theorem register_nonoverlap_invariant_witness :
    (RegisterMemoryArea
        (RegisterMemoryArea emptyRegistry "m0" "l0" 32 (some ⟨0, 16⟩)).2
        "m1" "l1" 32 (some ⟨8, 8⟩)).1 = false :=
  register_nonoverlap_invariant.2.1
    (RegisterMemoryArea emptyRegistry "m0" "l0" 32 (some ⟨0, 16⟩)).2
    "m1" "l1" 32 ⟨8, 8⟩ (by decide)

/-! ## Segment splitting lemmas -/

theorem splitGo_zero (st : Registry) (seg : ElfSegment) (fuel off : Nat) :
    splitGo st seg fuel off 0 = .ok [] := by
  cases fuel <;> simp [splitGo]

theorem splitGo_err (st : Registry) (seg : ElfSegment) :
    ∀ (fuel off remaining : Nat) (e : LoadError),
      splitGo st seg fuel off remaining = .error e → e = .UnmappedAddress := by
  intro fuel
  induction fuel with
  | zero => intro off r e h; simp [splitGo] at h
  | succ fuel ih =>
    intro off r e h
    simp only [splitGo] at h
    split at h
    · cases h
    · split at h
      · cases h; rfl
      · split at h
        · cases h
        · rename_i e' hrec
          cases h
          exact ih _ _ _ hrec

theorem splitGo_mapped (st : Registry) (seg : ElfSegment) :
    ∀ (fuel off remaining : Nat) (ws : List Write),
      splitGo st seg fuel off remaining = .ok ws → remaining ≤ fuel →
      ∀ b, seg.paddr + off ≤ b → b < seg.paddr + off + remaining →
        (FindRegionForAddr st b).isSome = true := by
  intro fuel
  induction fuel with
  | zero => intro off r ws h hle b hb1 hb2; omega
  | succ fuel ih =>
    intro off r ws h hle b hb1 hb2
    simp only [splitGo] at h
    split at h
    · rename_i h0; omega
    · rename_i h0
      split at h
      · cases h
      · rename_i m hf
        obtain ⟨p, hp, hpm, hc⟩ := find_region_elim hf
        simp only [containsAddr, regionEnd, Bool.and_eq_true, decide_eq_true_eq] at hc
        split at h
        · rename_i ws' hrec
          by_cases hb : b < seg.paddr + off + min (regionEnd m - (seg.paddr + off)) r
          · refine find_region_isSome hp ?_
            rw [hpm]
            simp only [containsAddr, regionEnd, Bool.and_eq_true, decide_eq_true_eq]
            simp only [regionEnd] at hb
            omega
          · simp only [regionEnd] at hb
            refine ih (off + min (regionEnd m - (seg.paddr + off)) r)
              (r - min (regionEnd m - (seg.paddr + off)) r) ws' hrec (by simp only [regionEnd]; omega)
              b (by simp only [regionEnd]; omega) (by simp only [regionEnd]; omega)
        · cases h

theorem range_map_split (f : Nat → Nat) (c r : Nat) (h : c ≤ r) :
    (List.range r).map f =
      (List.range c).map f ++ (List.range (r - c)).map (fun i => f (c + i)) := by
  conv_lhs => rw [show r = c + (r - c) by omega]
  rw [List.range_add, List.map_append, List.map_map]
  rfl

theorem splitGo_flatten (st : Registry) (seg : ElfSegment) :
    ∀ (fuel off remaining : Nat) (ws : List Write),
      splitGo st seg fuel off remaining = .ok ws → remaining ≤ fuel →
      ((ws.map Write.data).flatten =
         (List.range remaining).map (fun i => segByte seg (off + i))) ∧
      (∀ w ∈ ws, ∃ m ∈ st.addr_to_mem_.map Prod.snd, w.location = m.location ∧
          0 < w.data.length ∧ w.offset + w.data.length ≤ m.addr_loc.size) := by
  intro fuel
  induction fuel with
  | zero =>
    intro off r ws h hle
    have hr : r = 0 := Nat.le_zero.mp hle
    subst hr
    simp only [splitGo] at h
    cases h
    simp
  | succ fuel ih =>
    intro off r ws h hle
    simp only [splitGo] at h
    split at h
    · rename_i h0
      subst h0
      cases h
      simp
    · rename_i h0
      split at h
      · cases h
      · rename_i m hf
        obtain ⟨p, hp, hpm, hc⟩ := find_region_elim hf
        simp only [containsAddr, regionEnd, Bool.and_eq_true, decide_eq_true_eq] at hc
        split at h
        · rename_i ws' hrec
          cases h
          have hcpos : 0 < min (regionEnd m - (seg.paddr + off)) r := by
            simp only [regionEnd]; omega
          have hcle : min (regionEnd m - (seg.paddr + off)) r ≤ r := Nat.min_le_right _ _
          obtain ⟨ih1, ih2⟩ := ih _ _ _ hrec (by omega)
          constructor
          · simp only [List.map_cons, List.flatten_cons, ih1]
            rw [range_map_split (fun i => segByte seg (off + i)) _ r hcle]
            congr 1
            apply List.map_congr_left
            intro i hi
            congr 1
            omega
          · intro w' hw'
            rcases List.mem_cons.mp hw' with rfl | hmem
            · refine ⟨m, List.mem_map.mpr ⟨p, hp, hpm⟩, rfl, ?_, ?_⟩
              · simpa using hcpos
              · simp only [List.length_map, List.length_range, regionEnd] at hcpos ⊢
                omega
            · exact ih2 w' hmem
        · cases h

theorem splitGo_boundaries (st : Registry) (seg : ElfSegment) (hinv : RegistryInv st) :
    ∀ (fuel off remaining : Nat) (ws : List Write),
      splitGo st seg fuel off remaining = .ok ws → remaining ≤ fuel →
      ∀ s ∈ writeStarts (seg.paddr + off) ws, s ≠ seg.paddr + off →
        ∃ m, FindRegionForAddr st (s - 1) = some m ∧ regionEnd m = s := by
  intro fuel
  induction fuel with
  | zero =>
    intro off r ws h hle s hs hne
    have hr : r = 0 := Nat.le_zero.mp hle
    subst hr
    simp only [splitGo] at h
    cases h
    simp [writeStarts] at hs
  | succ fuel ih =>
    intro off r ws h hle s hs hne
    simp only [splitGo] at h
    split at h
    · cases h
      simp [writeStarts] at hs
    · rename_i h0
      split at h
      · cases h
      · rename_i m hf
        obtain ⟨p, hp, hpm, hc⟩ := find_region_elim hf
        simp only [containsAddr, regionEnd, Bool.and_eq_true, decide_eq_true_eq] at hc
        split at h
        · rename_i ws' hrec
          cases h
          simp only [writeStarts, List.length_map, List.length_range, List.mem_cons] at hs
          rcases hs with rfl | hs
          · exact absurd rfl hne
          · by_cases hsc : s = seg.paddr + off + min (regionEnd m - (seg.paddr + off)) r
            · have hwsne : ws' ≠ [] := by
                intro hE
                rw [hE] at hs
                simp [writeStarts] at hs
              have hrc : r - min (regionEnd m - (seg.paddr + off)) r ≠ 0 := by
                intro hz
                rw [hz, splitGo_zero] at hrec
                have hwE : ([] : List Write) = ws' := by injection hrec
                exact hwsne hwE.symm
              refine ⟨m, ?_, ?_⟩
              · have hcont : containsAddr p.2 (s - 1) = true := by
                  rw [hpm]
                  simp only [containsAddr, regionEnd, Bool.and_eq_true, decide_eq_true_eq]
                  simp only [regionEnd] at hsc hrc
                  omega
                rw [find_region_unique hinv hp hcont, hpm]
              · simp only [regionEnd] at hsc hrc ⊢
                omega
            · rw [Nat.add_assoc] at hs hsc
              exact ih (off + min (regionEnd m - (seg.paddr + off)) r)
                (r - min (regionEnd m - (seg.paddr + off)) r) ws' hrec
                (by simp only [regionEnd]; omega) s hs hsc
        · cases h

/-! ## Claim C1: segment splitting at region boundaries -/

/-- C1: whenever loading a `LOAD` segment succeeds over a registry satisfying
the non-overlap invariant, the issued writes (a) concatenate, in order, to
exactly the segment's `memsz` bytes (so their sub-ranges cover the segment
with no overlap and no gap), (b) each lie entirely within a single
registered region, targeting its location with `offset + length` within the
region size, and (c) are maximal: a new write starts only where the region
containing the previous byte ends, i.e. the segment is split exactly at
region boundaries — one write per maximal contiguous sub-range inside one
region. -/
theorem elf_segment_split_at_region_boundaries (st : Registry) (seg : ElfSegment)
    (ws : List Write) (hinv : RegistryInv st) (h : LoadElfSegment st seg = .ok ws) :
    ((ws.map Write.data).flatten = (List.range seg.memsz).map (fun i => segByte seg i)) ∧
    (∀ w ∈ ws, ∃ m ∈ st.addr_to_mem_.map Prod.snd, w.location = m.location ∧
        0 < w.data.length ∧ w.offset + w.data.length ≤ m.addr_loc.size) ∧
    (∀ s ∈ writeStarts seg.paddr ws, s ≠ seg.paddr →
        ∃ m, FindRegionForAddr st (s - 1) = some m ∧ regionEnd m = s) := by
  obtain ⟨h1, h2⟩ := splitGo_flatten st seg seg.memsz 0 seg.memsz ws h le_rfl
  have h3 := splitGo_boundaries st seg hinv seg.memsz 0 seg.memsz ws h le_rfl
  refine ⟨by simpa using h1, h2, ?_⟩
  intro s hs hne
  exact h3 s (by simpa using hs) (by simpa using hne)

/-- Witness for C1: the segment `[0x100, 0x180)` over the two adjacent
regions `[0x100, 0x140)` and `[0x140, 0x180)` of `stB` produces exactly two
writes, one per region, and they satisfy the confinement property. -/
theorem elf_segment_split_at_region_boundaries_witness :
    LoadElfSegment stB segB =
      .ok [⟨"TOP.u_rom", 0, List.replicate 0x40 7⟩,
           ⟨"TOP.u_ram", 0, List.replicate 0x40 0⟩] ∧
    (∀ w ∈ [(⟨"TOP.u_rom", 0, List.replicate 0x40 7⟩ : Write),
            ⟨"TOP.u_ram", 0, List.replicate 0x40 0⟩],
        ∃ m ∈ stB.addr_to_mem_.map Prod.snd, w.location = m.location ∧
          0 < w.data.length ∧ w.offset + w.data.length ≤ m.addr_loc.size) := by
  have h : LoadElfSegment stB segB =
      .ok [⟨"TOP.u_rom", 0, List.replicate 0x40 7⟩,
           ⟨"TOP.u_ram", 0, List.replicate 0x40 0⟩] := by rfl
  exact ⟨h, (elf_segment_split_at_region_boundaries stB segB _ (by decide) h).2.1⟩

/-! ## Claim C2: zero-initialized tail is written -/

/-- C2: when a `LOAD` segment with `filesz < memsz` loads successfully, the
issued writes carry `memsz` bytes in total, and every byte at a segment
offset in `[filesz, memsz)` is written as zero. -/
theorem elf_zero_tail_written (st : Registry) (seg : ElfSegment) (ws : List Write)
    (hfs : seg.filesz < seg.memsz) (h : LoadElfSegment st seg = .ok ws) :
    ((ws.map Write.data).flatten).length = seg.memsz ∧
    (∀ i, seg.filesz ≤ i → i < seg.memsz →
        ((ws.map Write.data).flatten)[i]? = some 0) := by
  obtain ⟨h1, -⟩ := splitGo_flatten st seg seg.memsz 0 seg.memsz ws h le_rfl
  constructor
  · rw [h1]
    simp
  · intro i hfi him
    rw [h1, List.getElem?_map, List.getElem?_range him]
    have hz : segByte seg i = 0 := by
      unfold segByte
      have hni : ¬ (i < seg.data.length) := by
        unfold ElfSegment.filesz at hfi
        omega
      rw [dif_neg hni]
    simp [hz]

/-- Witness for C2: loading `segB` (`filesz = 0x40 < memsz = 0x80`) into
`stB` writes `0x80` bytes in total and byte `0x50` (inside the tail) is
zero. -/
theorem elf_zero_tail_written_witness :
    ((([⟨"TOP.u_rom", 0, List.replicate 0x40 7⟩,
        ⟨"TOP.u_ram", 0, List.replicate 0x40 0⟩] : List Write).map
          Write.data).flatten).length = segB.memsz ∧
    ((([⟨"TOP.u_rom", 0, List.replicate 0x40 7⟩,
        ⟨"TOP.u_ram", 0, List.replicate 0x40 0⟩] : List Write).map
          Write.data).flatten)[0x50]? = some 0 := by
  have H := elf_zero_tail_written stB segB
      [⟨"TOP.u_rom", 0, List.replicate 0x40 7⟩,
       ⟨"TOP.u_ram", 0, List.replicate 0x40 0⟩]
      (by decide) (by rfl)
  exact ⟨H.1, H.2 0x50 (by decide) (by decide)⟩

/-! ## Claim C3: unmapped address is fatal -/

/-- C3: if any address in a `LOAD` segment's `[paddr, paddr + memsz)` range
resolves to no registered region, loading that segment fails with
`UnmappedAddress`, and any ELF load containing the segment reports
`UnmappedAddress` rather than success. -/
theorem elf_unmapped_address_fails (st : Registry) (seg : ElfSegment) (a : Nat)
    (hload : seg.ptype = PT_LOAD) (ha1 : seg.paddr ≤ a)
    (ha2 : a < seg.paddr + seg.memsz) (hun : FindRegionForAddr st a = none) :
    LoadElfSegment st seg = .error .UnmappedAddress ∧
    (∀ segs : List ElfSegment, seg ∈ segs →
        LoadElfToMemories st segs = .error .UnmappedAddress) := by
  have hmain : LoadElfSegment st seg = .error .UnmappedAddress := by
    cases hres : LoadElfSegment st seg with
    | ok ws =>
      have hsome := splitGo_mapped st seg seg.memsz 0 seg.memsz ws hres le_rfl a
        (by omega) (by omega)
      rw [hun] at hsome
      simp at hsome
    | error e =>
      have he := splitGo_err st seg seg.memsz 0 seg.memsz e hres
      rw [he]
  refine ⟨hmain, ?_⟩
  intro segs hmem
  induction segs with
  | nil => cases hmem
  | cons s rest ih =>
    rcases List.mem_cons.mp hmem with rfl | hmem'
    · simp [LoadElfToMemories, hload, hmain]
    · have hres := ih hmem'
      by_cases hpt : s.ptype = PT_LOAD
      · cases hcase : LoadElfSegment st s with
        | ok ws => simp [LoadElfToMemories, hpt, hcase, hres, Except.map]
        | error e =>
          have he := splitGo_err st s s.memsz 0 s.memsz e hcase
          subst he
          simp [LoadElfToMemories, hpt, hcase]
      · simp [LoadElfToMemories, hpt, hres]

/-- Witness for C3: the segment `segD` covering `[0x160, 0x1A0)` lies partly
outside the regions of `stB` (address `0x180` is unmapped): its load fails
with `UnmappedAddress` and so does the whole ELF load containing it. -/
theorem elf_unmapped_address_fails_witness :
    LoadElfSegment stB segD = .error .UnmappedAddress ∧
    LoadElfToMemories stB [segD] = .error .UnmappedAddress := by
  have H := elf_unmapped_address_fails stB segD 0x180 (by decide) (by decide)
    (by decide) (by decide)
  exact ⟨H.1, H.2 [segD] (by simp)⟩
